import Mathlib

/-!
Verification of the survey field/schema library (`src/fields.py`,
`src/exceptions.py`) against its natural-language specification.

The Python code is shallowly embedded: Python values appearing in the
claims are modelled by the inductive `Value` (floats as rationals),
exceptions by `PyError`, fallible code by `Except PyError`, and the
in-place container mutations by explicit state passing that also returns
the raised exception, so that atomicity ("state unchanged on failure")
is a real statement about the model.
-/

/-- Exception kinds raised by the library or by the Python runtime
(`src/exceptions.py` plus built-in `TypeError`/`ValueError`/`KeyError`/
`NameError`). -/
inductive PyError where
  | validationError
  | categoryCodeError
  | duplicateCategoryError
  | categoriesDeletionError
  | duplicateFieldNameError
  | fieldDoesNotExist
  | typeError
  | valueError
  | keyError
  | nameError
deriving DecidableEq, Repr

/-- Python values that flow through the field-coercion code: `None`,
`int`, `float` (modelled exactly as rationals; `nan`/`inf` do not occur
in any claim), `str`, and `list`. -/
inductive Value where
  | none : Value
  | int : Int → Value
  | float : Rat → Value
  | str : String → Value
  | list : List Value → Value

/-- Python whitespace recognised by `str.strip()` (ASCII part, which is
all the claims exercise). -/
def pySpace (c : Char) : Bool :=
  c = ' ' || c = '\t' || c = '\n' || c = '\r' || c = '\x0b' || c = '\x0c'

/-- `str.strip()` on the character list: drop whitespace at both ends. -/
def trimC (l : List Char) : List Char :=
  List.rdropWhile pySpace (List.dropWhile pySpace l)

/-- Python `s.strip()`. -/
def pyStrip (s : String) : String := String.mk (trimC s.toList)

/-- Python `s.lower()` (ASCII lowering; names and labels in the claims
are ASCII). -/
def pyLower (s : String) : String := String.mk (s.toList.map Char.toLower)

/-- Python truthiness (`bool(v)`) for the embedded values. -/
def pyTruthy : Value → Bool
  | .none => false
  | .int n => n != 0
  | .float q => q != 0
  | .str s => !s.isEmpty
  | .list l => !l.isEmpty

/-- Numeric value of a digit list (no validity check; callers check). -/
def digitsVal (l : List Char) : Nat :=
  l.foldl (fun a c => a * 10 + (c.toNat - 48)) 0

/-- Parse a non-empty all-digit character list. -/
def digitsToNat (l : List Char) : Option Nat :=
  if l.isEmpty || !(l.all Char.isDigit) then Option.none
  else Option.some (digitsVal l)

/-- Python `int(s)` on a string: surrounding whitespace ignored, optional
sign, then a non-empty digit run; anything else raises `ValueError`
(so `"15.5"` is rejected). Underscore separators are not modelled. -/
def pyIntOfString (s : String) : Except PyError Int :=
  match trimC s.toList with
  | '+' :: rest =>
    match digitsToNat rest with
    | Option.some n => .ok (n : Int)
    | Option.none => .error .valueError
  | '-' :: rest =>
    match digitsToNat rest with
    | Option.some n => .ok (-(n : Int))
    | Option.none => .error .valueError
  | l =>
    match digitsToNat l with
    | Option.some n => .ok (n : Int)
    | Option.none => .error .valueError

/-- Parse an unsigned decimal float token: `"12"`, `"12."`, `".5"`,
`"12.5"`. Exponent notation is not modelled (no claim uses it). -/
def parseUFloat (l : List Char) : Option Rat :=
  let intPart := l.takeWhile (fun c => c != '.')
  let rest := l.dropWhile (fun c => c != '.')
  match rest with
  | [] => (digitsToNat intPart).map (fun n => (n : Rat))
  | _ :: fracPart =>
    if intPart.isEmpty && fracPart.isEmpty then Option.none
    else if !(intPart.all Char.isDigit) || !(fracPart.all Char.isDigit) then Option.none
    else Option.some ((digitsVal intPart : Rat)
            + (digitsVal fracPart : Rat) / ((10 : Rat) ^ fracPart.length))

/-- Python `float(s)` on a string. -/
def pyFloatOfString (s : String) : Except PyError Rat :=
  match trimC s.toList with
  | '+' :: rest =>
    match parseUFloat rest with
    | Option.some q => .ok q
    | Option.none => .error .valueError
  | '-' :: rest =>
    match parseUFloat rest with
    | Option.some q => .ok (-q)
    | Option.none => .error .valueError
  | l =>
    match parseUFloat l with
    | Option.some q => .ok q
    | Option.none => .error .valueError

/-- Truncation toward zero, the behaviour of Python `int(float)`.
Written with divisions of non-negative operands only, where every
integer-division convention agrees. -/
def ratTrunc (q : Rat) : Int :=
  if 0 ≤ q.num then q.num / (q.den : Int) else -((-q.num) / (q.den : Int))

/-- Python `int(value)` on an embedded value: `TypeError` for `None` and
lists, truncation for floats, string parse for strings. -/
def pyInt : Value → Except PyError Int
  | .none => .error .typeError
  | .int n => .ok n
  | .float q => .ok (ratTrunc q)
  | .str s => pyIntOfString s
  | .list _ => .error .typeError

/-- Python `float(value)` on an embedded value. -/
def pyFloat : Value → Except PyError Rat
  | .none => .error .typeError
  | .int n => .ok (n : Rat)
  | .float q => .ok q
  | .str s => pyFloatOfString s
  | .list _ => .error .typeError

/-- Decimal rendering of a rational, for `str(float)`: exact for the
power-of-ten denominators produced by float literals, truncated at 40
digits otherwise. No theorem below depends on this rendering. -/
def fracDigitsAux : Nat → Nat → Nat → String
  | 0, _, _ => ""
  | fuel + 1, num, den =>
    if num = 0 then ""
    else toString (num * 10 / den) ++ fracDigitsAux fuel (num * 10 % den) den

def ratStr (q : Rat) : String :=
  let sign := if q.num < 0 then "-" else ""
  let n := q.num.natAbs
  sign ++ toString (n / q.den) ++ "." ++
    (if n % q.den = 0 then "0" else fracDigitsAux 40 (n % q.den) q.den)

/-- Python `str(value)`. Lists are rendered with `str` of the elements
(Python uses `repr`, which additionally quotes strings); no claim
inspects the rendering of a non-string value. -/
def pyStr : Value → String
  | .none => "None"
  | .int n => toString n
  | .float q => ratStr q
  | .str s => s
  | .list l => "[" ++ String.intercalate ", " (l.attach.map fun x => pyStr x.1) ++ "]"
decreasing_by
  have h := List.sizeOf_lt_of_mem x.2
  simp only [Value.list.sizeOf_spec]
  omega

/-! ## Field hierarchy (`src/fields.py`)

The module is embedded inside namespace `fields` (its Python module
name), which also keeps the source class name `Field` apart from
Mathlib's algebraic `Field` class. -/

namespace fields

/-- Base class `Field` (lines 12-44): `name`, stripped `title`. -/
structure Field where
  name : String
  title : String

/-- `Field.get_field_value` (lines 37-44): identity, never raises. -/
def Field.get_field_value (f : Field) (value : Value) : Except PyError Value :=
  .ok value

/-- `Field.get_print_value` (lines 31-35): identity. -/
def Field.get_print_value (f : Field) (value : Value) : Except PyError Value :=
  .ok value

/-- `IntegerField` (lines 47-55): optional integer bounds. `__init__`
int-coerces any given bound, so the stored bounds are integers (also for
`FloatField`, which inherits this constructor unchanged). -/
structure IntegerField where
  name : String
  title : String
  min : Option Int
  max : Option Int
deriving DecidableEq, Repr

/-- `IntegerField._in_min_max_interval` (lines 57-64). The guards are
`if (self.min and value < self.min)` / `if (self.max and value > self.max)`:
a bound that is `None` — or equal to `0`, which is falsy — disables the
check. -/
def _in_min_max_interval (min max : Option Int) (value : Int) : Except PyError Bool :=
  if (match min with | Option.some m => m != 0 && decide (value < m) | Option.none => false) then
    .error .validationError
  else if (match max with | Option.some m => m != 0 && decide (m < value) | Option.none => false) then
    .error .validationError
  else .ok true

/-- The same method applied at float argument type (its `value` is the
result of `float(value)` when called from `FloatField.get_field_value`). -/
def _in_min_max_intervalF (min max : Option Int) (value : Rat) : Except PyError Bool :=
  if (match min with | Option.some m => m != 0 && decide (value < (m : Rat)) | Option.none => false) then
    .error .validationError
  else if (match max with | Option.some m => m != 0 && decide ((m : Rat) < value) | Option.none => false) then
    .error .validationError
  else .ok true

/-- `IntegerField.get_field_value` (lines 66-75), parametrised by the
bounds so that `SingleField` can reuse it as its `super()` call:
`int(value)`; on `TypeError`/`ValueError` (the only errors `int` raises)
return `None` for falsy input, else raise `ValidationError`; then the
bounds check (which returns `True` or raises), then return the value. -/
def int_get_field_value (min max : Option Int) (value : Value) : Except PyError Value :=
  match pyInt value with
  | .error _ =>
    if pyTruthy value then .error .validationError else .ok .none
  | .ok n =>
    match _in_min_max_interval min max n with
    | .error e => .error e
    | .ok b => if b then .ok (.int n) else .ok .none

def IntegerField.get_field_value (f : IntegerField) (value : Value) : Except PyError Value :=
  int_get_field_value f.min f.max value

/-- `FloatField` (lines 78-89) has exactly the attributes of
`IntegerField` (it overrides only `get_field_value`). -/
abbrev FloatField := IntegerField

/-- `FloatField.get_field_value` (lines 80-89). -/
def FloatField.get_field_value (f : FloatField) (value : Value) : Except PyError Value :=
  match pyFloat value with
  | .error _ =>
    if pyTruthy value then .error .validationError else .ok .none
  | .ok q =>
    match _in_min_max_intervalF f.min f.max q with
    | .error e => .error e
    | .ok b => if b then .ok (.float q) else .ok .none

/-- `StringField.get_field_value` (lines 92-96): falsy input gives the
empty string, anything else `str(value)`. -/
def StringField.get_field_value (f : Field) (value : Value) : Except PyError Value :=
  if !pyTruthy value then .ok (.str "")
  else .ok (.str (pyStr value))

/-! ### Category store (`CategoriesMixin`, lines 99-150) -/

/-- First value bound to a key in an association list (Python `dict`
lookup; the lists built below keep one entry per key). -/
def lookupAssoc {κ α : Type} [DecidableEq κ] : List (κ × α) → κ → Option α
  | [], _ => Option.none
  | p :: rest, k => if p.1 = k then Option.some p.2 else lookupAssoc rest k

/-- Python `d[k] = v`: replace the value of an existing key in place,
otherwise append the new pair (insertion order is preserved). -/
def dictInsert {κ α : Type} [DecidableEq κ] : List (κ × α) → κ → α → List (κ × α)
  | [], k, v => [(k, v)]
  | p :: rest, k, v => if p.1 = k then (k, v) :: rest else p :: dictInsert rest k v

/-- `CategoriesMixin._get_categories` (lines 105-119). The input is a
`dict` of raw code/label pairs (modelled as an association list with the
dict's iteration order). Per pair: `label.strip()` is computed and
DISCARDED (the source never uses its result, so labels are compared
untrimmed); `int(code)` failure raises `CategoryCodeError`; a lowered
label already seen raises — but the raise statement
`raise DuplicateCategoryError('... %s ...' % (value, repr(self)))` refers
to the names `DuplicateCategoryError` (never imported into `fields.py`)
and `value` (never bound), so Python raises `NameError`, not
`DuplicateCategoryError`. -/
def _get_categories_aux : List (Value × String) → List (Int × String) → List String →
    Except PyError (List (Int × String))
  | [], acc, _ => .ok acc
  | (code, label) :: rest, acc, seen =>
    match pyInt code with
    | .error _ => .error .categoryCodeError
    | .ok c =>
      if pyLower label ∈ seen then .error .nameError
      else _get_categories_aux rest (dictInsert acc c label) (seen ++ [pyLower label])

def _get_categories (categories : List (Value × String)) : Except PyError (List (Int × String)) :=
  _get_categories_aux categories [] []

/-- Insertion of a pair into a list sorted by Python tuple order
(code first, then label), for `sorted(self.categories.items())`. -/
def insertPair (p : Int × String) : List (Int × String) → List (Int × String)
  | [] => [p]
  | q :: rest =>
    if p.1 < q.1 || (p.1 = q.1 && decide (p.2 < q.2)) then p :: q :: rest
    else q :: insertPair p rest

def sortPairs (l : List (Int × String)) : List (Int × String) :=
  l.foldr insertPair []

/-- Insertion sort of the integer codes, for `sorted(...keys())`. -/
def insertInt (n : Int) : List Int → List Int
  | [] => [n]
  | m :: rest => if n ≤ m then n :: m :: rest else m :: insertInt n rest

def sortInts (l : List Int) : List Int :=
  l.foldr insertInt []

/-- `SingleField` (line 153): `CategoriesMixin` + `IntegerField`. Its
`__init__` chain sets `min = max = None` (CategoriesMixin calls
`IntegerField.__init__(name, title)`), `_categories` to the validated
mapping and `codes` to the sorted key list. The structure carries the
attributes; theorems add the construction facts as hypotheses where they
are needed. -/
structure SingleField where
  name : String
  title : String
  min : Option Int
  max : Option Int
  _categories : List (Int × String)
  codes : List Int

/-- `MultipleField` (line 170) adds no attribute. -/
abbrev MultipleField := SingleField

/-- `CategoriesMixin.__init__` (lines 100-103) as run by
`SingleField(name, title, categories)`. -/
def mkCategorial (name title : String) (categories : List (Value × String)) :
    Except PyError SingleField :=
  match _get_categories categories with
  | .error e => .error e
  | .ok cats =>
    .ok { name := name, title := pyStrip title, min := Option.none, max := Option.none,
          _categories := cats, codes := sortInts (cats.map Prod.fst) }

/-- `CategoriesMixin.get_categories_intersection` (lines 121-133), inner
loop. `other_code = label_dict.get(label.lower(), None)` followed by
`if other_code:` — a missing label is skipped, and so is a found code
equal to `0`, which is falsy. -/
def intersectAux (label_dict : List (String × Int)) :
    List (Int × String) → List (Int × Int × String)
  | [] => []
  | (code, label) :: rest =>
    match lookupAssoc label_dict (pyLower label) with
    | Option.some other_code =>
      if other_code != 0 then (code, other_code, label) :: intersectAux label_dict rest
      else intersectAux label_dict rest
    | Option.none => intersectAux label_dict rest

/-- `label_dict = dict(zip([c.lower() for c in other_categories.values()],
other_categories.keys()))`: pairs of lowered label and code, later
entries overwriting earlier ones. -/
def buildLabelDict (other_categories : List (Int × String)) : List (String × Int) :=
  (other_categories.map fun p => (pyLower p.2, p.1)).foldl
    (fun d p => dictInsert d p.1 p.2) []

def get_categories_intersection (f : SingleField) (other_categories : List (Int × String)) :
    List (Int × Int × String) :=
  intersectAux (buildLabelDict other_categories) (sortPairs f._categories)

/-- The `categories` setter (lines 139-142). Its body is
`self._categories = self._get_categories(categories)` — but the
parameter is named `newcategories` and no `categories` is in scope, so
evaluating the call argument raises `NameError` before anything is
assigned; the new mapping is never looked at and the field is unchanged.
(The next line, `self.codes = list[sorted(...)]`, would not run.) -/
def categories_setter (f : SingleField) (newcategories : List (Value × String)) :
    SingleField × Option PyError :=
  (f, Option.some .nameError)

/-- The `categories` deleter (lines 144-147): always raises
`CategoriesDeletionError`, touching nothing. -/
def categories_deleter (f : SingleField) : SingleField × Option PyError :=
  (f, Option.some .categoriesDeletionError)

/-- `SingleField.get_field_value` (lines 155-163): the `super()` call is
`IntegerField.get_field_value` (with this field's bounds, `None` for a
constructed field); `None` is passed through; then
`if value not in self.codes: raise ValidationError` (a non-int result
cannot be in the int code list, but integer coercion only ever returns
an int here). -/
def SingleField.get_field_value (f : SingleField) (value : Value) : Except PyError Value :=
  match int_get_field_value f.min f.max value with
  | .error e => .error e
  | .ok .none => .ok .none
  | .ok (.int c) => if c ∈ f.codes then .ok (.int c) else .error .validationError
  | .ok _ => .error .validationError

/-- `SingleField.get_print_value` (lines 165-167): coerce, then
`self._categories[value]` — when coercion gave `None`, `None` is not
among the integer keys, so the lookup raises `KeyError`. -/
def SingleField.get_print_value (f : SingleField) (value : Value) : Except PyError Value :=
  match SingleField.get_field_value f value with
  | .error e => .error e
  | .ok (.int c) =>
    match lookupAssoc f._categories c with
    | Option.some label => .ok (.str label)
    | Option.none => .error .keyError
  | .ok _ => .error .keyError

/-- `MultipleField.get_field_value` (lines 172-185), loop body: per
element the `super()` call is `SingleField.get_field_value`; `None`
results are skipped; then the (redundant) second membership check; the
accepted value is appended. The first exception aborts the whole loop. -/
def multAux (f : SingleField) : List Value → Except PyError (List Value)
  | [] => .ok []
  | v :: rest =>
    match SingleField.get_field_value f v with
    | .error e => .error e
    | .ok .none => multAux f rest
    | .ok w =>
      if (match w with | .int c => decide (c ∈ f.codes) | _ => false) then
        match multAux f rest with
        | .error e => .error e
        | .ok cs => .ok (w :: cs)
      else .error .validationError

/-- `MultipleField.get_field_value` (lines 172-185): `for value in
values` iterates list elements, or the characters of a string, and
raises `TypeError` on non-iterable input (`None`, numbers); an empty
result list is falsy, so `if not result_values: return None`. -/
def MultipleField.get_field_value (f : MultipleField) (values : Value) : Except PyError Value :=
  match values with
  | .list vs =>
    match multAux f vs with
    | .error e => .error e
    | .ok cs => if cs.isEmpty then .ok .none else .ok (.list cs)
  | .str s =>
    match multAux f (s.toList.map fun c => Value.str (String.mk [c])) with
    | .error e => .error e
    | .ok cs => if cs.isEmpty then .ok .none else .ok (.list cs)
  | _ => .error .typeError

/-- `MultipleField.get_print_value` (lines 187-189): coerce, then
`[self._categories[v] for v in values]` — when coercion gave `None`
(all elements absent), iterating `None` raises `TypeError`. -/
def MultipleField.get_print_value (f : MultipleField) (value : Value) : Except PyError Value :=
  match MultipleField.get_field_value f value with
  | .error e => .error e
  | .ok (.list vs) =>
    match vs.mapM (fun v =>
        match v with
        | .int c => lookupAssoc f._categories c
        | _ => Option.none) with
    | Option.some labels => .ok (.list (labels.map Value.str))
    | Option.none => .error .keyError
  | .ok _ => .error .typeError

/-! ### Survey schema container (`SurveyStruct`, lines 192-245) -/

/-- A field held by the container. For the container only the `name`
attribute matters; `fid` models Python object identity (`Field` defines
no `__eq__`, so `list.remove` compares by identity). -/
structure SField where
  fid : Nat
  name : String
deriving DecidableEq, Repr

/-- `name.lower().strip()`, the normalisation applied by
`_add_to_dict`/`_get_from_dict`. -/
def normName (s : String) : String := pyStrip (pyLower s)

/-- `SurveyStruct.__init__` state: the ordered `_fields` list and the
name-indexed `_field_dict` (a Python dict, modelled as an association
list in insertion order with at most one entry per key). -/
structure SurveyStruct where
  _fields : List SField
  _field_dict : List (String × SField)
deriving DecidableEq, Repr

def SurveyStruct.empty : SurveyStruct := ⟨[], []⟩

/-- `SurveyStruct._add_to_dict` (lines 202-208): duplicate normalised
name raises `DuplicateFieldNameError` before any mutation. -/
def SurveyStruct._add_to_dict (s : SurveyStruct) (field : SField) :
    Except PyError SurveyStruct :=
  let field_name := normName field.name
  match lookupAssoc s._field_dict field_name with
  | Option.some _ => .error .duplicateFieldNameError
  | Option.none =>
    .ok { s with _field_dict := dictInsert s._field_dict field_name field }

/-- `SurveyStruct._get_from_dict` (lines 210-215). `if field:` — a
`Field` instance is always truthy, so this is a plain found/not-found
test. -/
def SurveyStruct._get_from_dict (s : SurveyStruct) (field_name : String) :
    Except PyError SField :=
  match lookupAssoc s._field_dict (normName field_name) with
  | Option.some field => .ok field
  | Option.none => .error .fieldDoesNotExist

/-- `SurveyStruct.append` (lines 221-223). The pair result carries the
state after the call together with the exception raised, if any, so that
atomicity is a statement about the model. -/
def SurveyStruct.append (s : SurveyStruct) (field : SField) :
    SurveyStruct × Option PyError :=
  match s._add_to_dict field with
  | .error e => (s, Option.some e)
  | .ok s1 => ({ s1 with _fields := s1._fields ++ [field] }, Option.none)

/-- Python `list.insert(i, x)`: the index is clamped into range
(negative indices count from the end). -/
def pyInsertIdx {α : Type} (l : List α) (i : Int) (a : α) : List α :=
  let n : Nat := if i < 0 then (Max.max 0 ((l.length : Int) + i)).toNat
                 else Min.min i.toNat l.length
  l.insertIdx n a

/-- `SurveyStruct.insert` (lines 225-227): the dict check-and-add runs
first, then the list insertion (which cannot fail). -/
def SurveyStruct.insert (s : SurveyStruct) (i : Int) (field : SField) :
    SurveyStruct × Option PyError :=
  match s._add_to_dict field with
  | .error e => (s, Option.some e)
  | .ok s1 => ({ s1 with _fields := pyInsertIdx s1._fields i field }, Option.none)

/-- Python `dict.pop(k)` with no default: `None` when the key is absent
(a `KeyError`, raised before any mutation), else the dict without its
single `k` entry. -/
def dictPop {α : Type} : List (String × α) → String → Option (List (String × α))
  | [], _ => Option.none
  | p :: rest, k =>
    if p.1 = k then Option.some rest
    else (dictPop rest k).map (fun d => p :: d)

/-- Python `list.remove(x)`: drop the first element equal to `x`
(the caller checks presence; on an absent element Python raises
`ValueError`). -/
def removeFirst {α : Type} [DecidableEq α] : List α → α → List α
  | [], _ => []
  | x :: rest, a => if x = a then rest else x :: removeFirst rest a

/-- `SurveyStruct.remove` (lines 229-232). Note the asymmetry taken from
the source: the lookup key is `field_name.lower().strip()` (via
`_get_from_dict`) but the pop key is `field_name.lower()` WITHOUT
`strip()`; a name with surrounding whitespace therefore reaches the pop
with a key that no (always-trimmed) dict entry carries, raising
`KeyError` with nothing yet mutated. The list removal runs last; were
the found field somehow absent from `_fields`, `list.remove` would raise
`ValueError` after the dict entry was already popped. -/
def SurveyStruct.remove (s : SurveyStruct) (field_name : String) :
    SurveyStruct × Option PyError :=
  match s._get_from_dict field_name with
  | .error e => (s, Option.some e)
  | .ok field =>
    match dictPop s._field_dict (pyLower field_name) with
    | Option.none => (s, Option.some .keyError)
    | Option.some d =>
      if field ∈ s._fields then
        ({ _fields := removeFirst s._fields field, _field_dict := d }, Option.none)
      else ({ s with _field_dict := d }, Option.some .valueError)

/-- One mutating container operation, for quantifying over operation
sequences. -/
inductive SOp where
  | addOp : SField → SOp
  | insOp : Int → SField → SOp
  | remOp : String → SOp

def SurveyStruct.step (s : SurveyStruct) : SOp → SurveyStruct × Option PyError
  | .addOp f => s.append f
  | .insOp i f => s.insert i f
  | .remOp n => s.remove n

/-- Run a sequence of operations, keeping the state each operation
leaves behind whether it returns or raises (the caller catches). -/
def SurveyStruct.run (s : SurveyStruct) (ops : List SOp) : SurveyStruct :=
  ops.foldl (fun st op => (st.step op).1) s

/-! ## Claim theorems -/

/-- C1: the claim states that a bound equal to zero is still enforced
(coercion of numeric `v` succeeds iff `min ≤ v ≤ max`). The code treats
a zero bound as unset: for an Integer field with bounds `[0, 10]` the
value `-5` is ACCEPTED and returned, where the claim requires a
`ValidationError`. (Empty input does yield Absent, and a nonzero bound
is enforced.) -/
theorem C1_zero_bound_not_enforced :
    (IntegerField.mk "f" "" (Option.some 0) (Option.some 10)).get_field_value (.int (-5))
      = .ok (.int (-5)) ∧
    (IntegerField.mk "f" "" (Option.some 0) (Option.some 10)).get_field_value (.str "")
      = .ok .none ∧
    (IntegerField.mk "f" "" (Option.some 1) (Option.some 10)).get_field_value (.int (-5))
      = .error .validationError :=
  ⟨rfl, rfl, rfl⟩

/-- C3: for every Integer field, the fractional STRING `"15.5"` is
rejected with `ValidationError`, while the already-numeric `15.5`
truncates toward zero to `15` and is accepted whenever the bounds test
lets `15` through (which it does for any bounds admitting 15, in
particular the unbounded field). -/
theorem C3_fractional_asymmetry (f : IntegerField)
    (h : _in_min_max_interval f.min f.max 15 = .ok true) :
    f.get_field_value (.str "15.5") = .error .validationError ∧
    f.get_field_value (.float ((31 : Rat) / 2)) = .ok (.int 15) := by
  constructor
  · have h1 : pyInt (.str "15.5") = .error .valueError := rfl
    have ht : pyTruthy (.str "15.5") = true := rfl
    simp [IntegerField.get_field_value, int_get_field_value, h1, ht]
  · have h2 : pyInt (.float ((31 : Rat) / 2)) = .ok 15 := by
      norm_num [pyInt, ratTrunc]
    simp [IntegerField.get_field_value, int_get_field_value, h2, h]

theorem C3_fractional_asymmetry_witness :
    (IntegerField.mk "q1" "" (Option.some 1) (Option.some 20)).get_field_value (.str "15.5")
      = .error .validationError ∧
    (IntegerField.mk "q1" "" (Option.some 1) (Option.some 20)).get_field_value
      (.float ((31 : Rat) / 2)) = .ok (.int 15) :=
  C3_fractional_asymmetry (IntegerField.mk "q1" "" (Option.some 1) (Option.some 20)) rfl

/-- C6: the claim states that assigning `categories` re-validates the
new mapping and replaces mapping and code list on success. In the code
the setter body reads the unbound name `categories` (its parameter is
`newcategories`), so EVERY assignment raises `NameError` without
validating or replacing anything; only the deleter half of the claim
(always `CategoriesDeletionError`, store unchanged) holds. -/
theorem C6_categories_setter_deleter (f : SingleField)
    (newcategories : List (Value × String)) :
    categories_setter f newcategories = (f, Option.some PyError.nameError) ∧
    categories_deleter f = (f, Option.some PyError.categoriesDeletionError) :=
  ⟨rfl, rfl⟩

/-- C7: the claim states `DuplicateCategoryError` on a case-insensitive
label collision after trimming. In the code (i) the collision raise
itself fails with `NameError` (the raise statement names the unimported
`DuplicateCategoryError` and the unbound `value`), and (ii) labels are
never trimmed (`label.strip()` is discarded), so `"a"` versus `"a "`
passes. The `CategoryCodeError` half and the success path behave as
claimed. -/
theorem C7_category_validation_behavior :
    _get_categories [(.int 1, "a"), (.int 2, "A")] = .error .nameError ∧
    _get_categories [(.int 1, "a"), (.int 2, "a ")] = .ok [(1, "a"), (2, "a ")] ∧
    _get_categories [(.str "x", "a")] = .error .categoryCodeError ∧
    _get_categories [(.int 1, "a"), (.int 2, "b")] = .ok [(1, "a"), (2, "b")] :=
  ⟨rfl, rfl, rfl, rfl⟩

/-- C8: every failing mutation is atomic: `append`/`insert` that raise
(`DuplicateFieldNameError` is their only failure) and a failing
`categories` assignment leave the container, respectively the field,
exactly as they were. -/
theorem C8_failed_mutation_atomicity (s : SurveyStruct) (field : SField) (i : Int)
    (g : SingleField) (nc : List (Value × String)) :
    (∀ e, (s.append field).2 = Option.some e → (s.append field).1 = s) ∧
    (∀ e, (s.insert i field).2 = Option.some e → (s.insert i field).1 = s) ∧
    (∀ e, (categories_setter g nc).2 = Option.some e → (categories_setter g nc).1 = g) := by
  refine ⟨?_, ?_, fun e h => rfl⟩
  · intro e h
    cases hadd : s._add_to_dict field with
    | error e2 => simp [SurveyStruct.append, hadd]
    | ok s1 => simp [SurveyStruct.append, hadd] at h
  · intro e h
    cases hadd : s._add_to_dict field with
    | error e2 => simp [SurveyStruct.insert, hadd]
    | ok s1 => simp [SurveyStruct.insert, hadd] at h

theorem C8_failed_mutation_atomicity_witness :
    ((SurveyStruct.mk [⟨0, "q1"⟩] [("q1", ⟨0, "q1"⟩)]).append ⟨1, " Q1 "⟩).1
      = SurveyStruct.mk [⟨0, "q1"⟩] [("q1", ⟨0, "q1"⟩)] :=
  (C8_failed_mutation_atomicity (SurveyStruct.mk [⟨0, "q1"⟩] [("q1", ⟨0, "q1"⟩)])
      ⟨1, " Q1 "⟩ 0 (SingleField.mk "m" "" Option.none Option.none [] []) []).1
    PyError.duplicateFieldNameError rfl

/-- C10: when coercion yields Absent, `get_print_value` neither returns
Absent nor raises `ValidationError`: `SingleField` feeds `None` into the
int-keyed `self._categories[...]` lookup (`KeyError`), `MultipleField`
iterates over `None` (`TypeError`). -/
theorem C10_print_value_on_absent (f : SingleField) (v w : Value)
    (h1 : SingleField.get_field_value f v = .ok .none)
    (h2 : MultipleField.get_field_value f w = .ok .none) :
    SingleField.get_print_value f v = .error .keyError ∧
    MultipleField.get_print_value f w = .error .typeError := by
  constructor
  · simp [SingleField.get_print_value, h1]
  · simp [MultipleField.get_print_value, h2]

theorem C10_print_value_on_absent_witness :
    SingleField.get_print_value
        (SingleField.mk "m" "" Option.none Option.none [(1, "a")] [1]) (.str "")
      = .error .keyError ∧
    MultipleField.get_print_value
        (SingleField.mk "m" "" Option.none Option.none [(1, "a")] [1]) (.list [])
      = .error .typeError :=
  C10_print_value_on_absent
    (SingleField.mk "m" "" Option.none Option.none [(1, "a")] [1])
    (.str "") (.list []) rfl rfl

/-! ### Characterisation of the numeric and categorical coercion -/

theorem in_min_max_ok {min max : Option Int} {n : Int} {b : Bool}
    (h : _in_min_max_interval min max n = .ok b) : b = true := by
  unfold _in_min_max_interval at h
  split at h
  · simp at h
  · split at h
    · simp at h
    · injection h with hb; exact hb.symm

theorem in_min_max_err {min max : Option Int} {n : Int} {e : PyError}
    (h : _in_min_max_interval min max n = .error e) : e = .validationError := by
  unfold _in_min_max_interval at h
  split at h
  · injection h with he; exact he.symm
  · split at h
    · injection h with he; exact he.symm
    · simp at h

theorem int_gfv_ok {min max : Option Int} {v w : Value}
    (h : int_get_field_value min max v = .ok w) :
    w = .none ∨ ∃ n, w = .int n ∧ _in_min_max_interval min max n = .ok true := by
  unfold int_get_field_value at h
  split at h
  · split at h
    · simp at h
    · injection h with hw; exact Or.inl hw.symm
  · rename_i n hp
    split at h
    · simp at h
    · rename_i b hb
      have hbt := in_min_max_ok hb
      subst hbt
      rw [if_pos rfl] at h
      injection h with hw
      exact Or.inr ⟨n, hw.symm, hb⟩

theorem int_gfv_err {min max : Option Int} {v : Value} {e : PyError}
    (h : int_get_field_value min max v = .error e) : e = .validationError := by
  unfold int_get_field_value at h
  split at h
  · split at h
    · injection h with he; exact he.symm
    · simp at h
  · split at h
    · rename_i e2 hb
      injection h with he
      rw [← he]
      exact in_min_max_err hb
    · split at h <;> simp at h

theorem single_gfv_ok {f : SingleField} {v w : Value}
    (h : SingleField.get_field_value f v = .ok w) :
    w = .none ∨ ∃ c, w = .int c ∧ c ∈ f.codes ∧
      _in_min_max_interval f.min f.max c = .ok true := by
  unfold SingleField.get_field_value at h
  split at h
  · simp at h
  · injection h with hw; exact Or.inl hw.symm
  · rename_i c heq
    split at h
    · rename_i hmem
      injection h with hw
      rcases int_gfv_ok heq with h1 | ⟨n, hn, hb⟩
      · exact absurd h1 (fun hc => nomatch hc)
      · injection hn with hnc
        subst hnc
        exact Or.inr ⟨c, hw.symm, hmem, hb⟩
    · simp at h
  · simp at h

theorem single_gfv_err {f : SingleField} {v : Value} {e : PyError}
    (h : SingleField.get_field_value f v = .error e) : e = .validationError := by
  unfold SingleField.get_field_value at h
  split at h
  · rename_i e2 heq
    injection h with he
    rw [← he]
    exact int_gfv_err heq
  · simp at h
  · split at h
    · simp at h
    · injection h with he; exact he.symm
  · injection h with he; exact he.symm

theorem single_idem {f : SingleField} {v w : Value}
    (h : SingleField.get_field_value f v = .ok w) :
    SingleField.get_field_value f w = .ok w := by
  rcases single_gfv_ok h with rfl | ⟨c, rfl, hmem, hb⟩
  · rfl
  · unfold SingleField.get_field_value int_get_field_value
    simp [pyInt, hb, hmem]

/-- Whether a per-element coercion raised (used to state C2). -/
def raised (r : Except PyError Value) : Bool :=
  match r with
  | .error _ => true
  | .ok _ => false

/-- The accepted code of one element of a Multiple input; `Option.none`
when the element is skipped as absent (used to state C2). -/
def accepted (f : SingleField) (v : Value) : Option Value :=
  match SingleField.get_field_value f v with
  | .ok (.int c) => Option.some (.int c)
  | _ => Option.none

theorem multAux_ok_of_no_raise {f : SingleField} {vs : List Value}
    (h : ∀ v ∈ vs, raised (SingleField.get_field_value f v) = false) :
    multAux f vs = .ok (vs.filterMap (accepted f)) := by
  induction vs with
  | nil => rfl
  | cons v rest ih =>
    have hv := h v (List.mem_cons_self v rest)
    have hrest := fun x hx => h x (List.mem_cons_of_mem v hx)
    cases hs : SingleField.get_field_value f v with
    | error e => rw [hs] at hv; simp [raised] at hv
    | ok u =>
      rcases single_gfv_ok hs with rfl | ⟨c, rfl, hmem, hb⟩
      · simp [multAux, hs, List.filterMap_cons, accepted, ih hrest]
      · simp [multAux, hs, hmem, List.filterMap_cons, accepted, ih hrest]

theorem multAux_err_of_raise {f : SingleField} {vs : List Value}
    (h : ∃ v ∈ vs, raised (SingleField.get_field_value f v) = true) :
    multAux f vs = .error .validationError := by
  induction vs with
  | nil =>
    rcases h with ⟨v, hv, _⟩
    exact absurd hv (List.not_mem_nil v)
  | cons v rest ih =>
    cases hs : SingleField.get_field_value f v with
    | error e =>
      have he := single_gfv_err hs
      subst he
      simp [multAux, hs]
    | ok u =>
      rcases h with ⟨x, hx, hr⟩
      rcases List.mem_cons.mp hx with rfl | hx2
      · rw [hs] at hr; simp [raised] at hr
      · have herr := ih ⟨x, hx2, hr⟩
        rcases single_gfv_ok hs with rfl | ⟨c, rfl, hmem, hb⟩
        · simp [multAux, hs, herr]
        · simp [multAux, hs, hmem, herr]

/-- C2: for a Multiple field on an input list, one raising element
(raises are exactly the present-but-invalid ones) fails the whole call
with `ValidationError` — the coercion is pure, so no partial result can
survive — while with no raising element the result is the input-ordered
list of accepted codes with absent elements skipped, or Absent when
nothing remains. -/
theorem C2_multiple_field_coercion (f : MultipleField) (vs : List Value) :
    ((∃ v ∈ vs, raised (SingleField.get_field_value f v) = true) →
      MultipleField.get_field_value f (.list vs) = .error .validationError) ∧
    ((∀ v ∈ vs, raised (SingleField.get_field_value f v) = false) →
      MultipleField.get_field_value f (.list vs) =
        if (vs.filterMap (accepted f)).isEmpty then .ok .none
        else .ok (.list (vs.filterMap (accepted f)))) := by
  constructor
  · intro h
    simp [MultipleField.get_field_value, multAux_err_of_raise h]
  · intro h
    simp [MultipleField.get_field_value, multAux_ok_of_no_raise h]

theorem C2_multiple_field_coercion_witness :
    MultipleField.get_field_value
        (SingleField.mk "m" "" Option.none Option.none [(1, "a"), (2, "b")] [1, 2])
        (.list [.str "", .int 1]) = .ok (.list [.int 1]) := by
  have h := (C2_multiple_field_coercion
      (SingleField.mk "m" "" Option.none Option.none [(1, "a"), (2, "b")] [1, 2])
      [.str "", .int 1]).2 (by decide)
  exact h.trans (by rfl)

theorem in_min_max_okF {min max : Option Int} {q : Rat} {b : Bool}
    (h : _in_min_max_intervalF min max q = .ok b) : b = true := by
  unfold _in_min_max_intervalF at h
  split at h
  · simp at h
  · split at h
    · simp at h
    · injection h with hb; exact hb.symm

theorem float_gfv_ok {f : FloatField} {v w : Value}
    (h : FloatField.get_field_value f v = .ok w) :
    w = .none ∨ ∃ q, w = .float q ∧ _in_min_max_intervalF f.min f.max q = .ok true := by
  unfold FloatField.get_field_value at h
  split at h
  · split at h
    · simp at h
    · injection h with hw; exact Or.inl hw.symm
  · rename_i q hp
    split at h
    · simp at h
    · rename_i b hb
      have hbt := in_min_max_okF hb
      subst hbt
      rw [if_pos rfl] at h
      injection h with hw
      exact Or.inr ⟨q, hw.symm, hb⟩

theorem int_gfv_idem {min max : Option Int} {v w : Value}
    (h : int_get_field_value min max v = .ok w) :
    int_get_field_value min max w = .ok w := by
  rcases int_gfv_ok h with rfl | ⟨n, rfl, hb⟩
  · rfl
  · unfold int_get_field_value
    simp [pyInt, hb]

theorem float_gfv_idem {f : FloatField} {v w : Value}
    (h : FloatField.get_field_value f v = .ok w) :
    FloatField.get_field_value f w = .ok w := by
  rcases float_gfv_ok h with rfl | ⟨q, rfl, hb⟩
  · rfl
  · unfold FloatField.get_field_value
    simp [pyFloat, hb]

theorem string_gfv_idem {g : Field} {v w : Value}
    (h : StringField.get_field_value g v = .ok w) :
    StringField.get_field_value g w = .ok w := by
  have hw : ∃ s, w = .str s := by
    unfold StringField.get_field_value at h
    split at h
    · exact ⟨"", by injection h with hw; exact hw.symm⟩
    · exact ⟨pyStr v, by injection h with hw; exact hw.symm⟩
  rcases hw with ⟨s, rfl⟩
  unfold StringField.get_field_value
  by_cases hs : s.isEmpty = true
  · have hse : s = "" := (String.isEmpty_iff s).mp hs
    subst hse
    rfl
  · have ht : pyTruthy (.str s) = true := by
      simp [pyTruthy, hs]
    simp [ht, pyStr]

theorem multAux_ok_mem {f : SingleField} {vs cs : List Value}
    (h : multAux f vs = .ok cs) :
    ∀ w ∈ cs, SingleField.get_field_value f w = .ok w ∧ ∃ c, w = .int c ∧ c ∈ f.codes := by
  induction vs generalizing cs with
  | nil =>
    injection h with hcs
    subst hcs
    intro w hw
    exact absurd hw (List.not_mem_nil w)
  | cons v rest ih =>
    cases hs : SingleField.get_field_value f v with
    | error e => simp [multAux, hs] at h
    | ok u =>
      rcases single_gfv_ok hs with rfl | ⟨c, rfl, hmem, hb⟩
      · rw [show multAux f (v :: rest) = multAux f rest from by simp [multAux, hs]] at h
        exact ih h
      · have hstep : multAux f (v :: rest)
            = match multAux f rest with
              | .error e => .error e
              | .ok cs2 => .ok (.int c :: cs2) := by
          simp [multAux, hs, hmem]
        rw [hstep] at h
        cases hr : multAux f rest with
        | error e => rw [hr] at h; simp at h
        | ok cs2 =>
          rw [hr] at h
          injection h with hcs
          subst hcs
          intro w hw
          rcases List.mem_cons.mp hw with rfl | hw2
          · exact ⟨single_idem hs, c, rfl, hmem⟩
          · exact ih hr w hw2

theorem multAux_fixpoint {f : SingleField} {cs : List Value}
    (h : ∀ w ∈ cs, SingleField.get_field_value f w = .ok w ∧ ∃ c, w = .int c ∧ c ∈ f.codes) :
    multAux f cs = .ok cs := by
  induction cs with
  | nil => rfl
  | cons w rest ih =>
    rcases h w (List.mem_cons_self w rest) with ⟨hok, c, hc, hmem⟩
    subst hc
    have hrest := ih (fun x hx => h x (List.mem_cons_of_mem _ hx))
    simp [multAux, hok, hmem, hrest]

theorem mult_gfv_idem {f : MultipleField} {v w : Value}
    (h : MultipleField.get_field_value f v = .ok w) (hw : w ≠ .none) :
    MultipleField.get_field_value f w = .ok w := by
  unfold MultipleField.get_field_value at h
  split at h
  · split at h
    · simp at h
    · rename_i cs hm
      split at h
      · injection h with h2
        exact absurd h2.symm hw
      · rename_i hcs
        injection h with h2
        subst h2
        have hfix := multAux_fixpoint (multAux_ok_mem hm)
        simp [MultipleField.get_field_value, hfix, hcs]
  · split at h
    · simp at h
    · rename_i cs hm
      split at h
      · injection h with h2
        exact absurd h2.symm hw
      · rename_i hcs
        injection h with h2
        subst h2
        have hfix := multAux_fixpoint (multAux_ok_mem hm)
        simp [MultipleField.get_field_value, hfix, hcs]
  · simp at h

/-- C9 counterexample: the claim fails as stated for a Multiple field.
The input `[]` is accepted (the coercion returns Absent, i.e. `None`),
but re-applying the coercion to that returned value raises `TypeError`
(iterating `None`) instead of returning the same value. -/
theorem C9_multiple_absent_not_idempotent :
    MultipleField.get_field_value
        (SingleField.mk "m" "" Option.none Option.none [(1, "a")] [1]) (.list [])
      = .ok .none ∧
    MultipleField.get_field_value
        (SingleField.mk "m" "" Option.none Option.none [(1, "a")] [1]) Value.none
      = .error .typeError :=
  ⟨rfl, rfl⟩

/-- C9 (amended): coerce-and-validate is idempotent on every accepted
input for the base, Integer, Float, String and Single variants, and for
the Multiple variant on every accepted input whose result is not Absent;
a Multiple field's Absent result is `None`, whose re-coercion raises
`TypeError` (see the counterexample). -/
theorem C9_idempotence_amended :
    (∀ (g : Field) (v w : Value), Field.get_field_value g v = .ok w →
      Field.get_field_value g w = .ok w) ∧
    (∀ (f : IntegerField) (v w : Value), f.get_field_value v = .ok w →
      f.get_field_value w = .ok w) ∧
    (∀ (f : FloatField) (v w : Value), FloatField.get_field_value f v = .ok w →
      FloatField.get_field_value f w = .ok w) ∧
    (∀ (g : Field) (v w : Value), StringField.get_field_value g v = .ok w →
      StringField.get_field_value g w = .ok w) ∧
    (∀ (f : SingleField) (v w : Value), SingleField.get_field_value f v = .ok w →
      SingleField.get_field_value f w = .ok w) ∧
    (∀ (f : MultipleField) (v w : Value), MultipleField.get_field_value f v = .ok w →
      w ≠ .none → MultipleField.get_field_value f w = .ok w) := by
  refine ⟨?_, ?_, ?_, ?_, ?_, ?_⟩
  · intro g v w h
    injection h with hw
    subst hw
    rfl
  · intro f v w h
    exact int_gfv_idem h
  · intro f v w h
    exact float_gfv_idem h
  · intro g v w h
    exact string_gfv_idem h
  · intro f v w h
    exact single_idem h
  · intro f v w h hw
    exact mult_gfv_idem h hw

theorem C9_idempotence_amended_witness :
    MultipleField.get_field_value
        (SingleField.mk "m" "" Option.none Option.none [(1, "a")] [1]) (.list [.int 1])
      = .ok (.list [.int 1]) :=
  C9_idempotence_amended.2.2.2.2.2
    (SingleField.mk "m" "" Option.none Option.none [(1, "a")] [1])
    (.list [.int 1]) (.list [.int 1]) rfl (fun hc => nomatch hc)

/-! ### Lemmas for the label-intersection round trip (C5) -/

theorem dictInsert_not_mem {κ α : Type} [DecidableEq κ] {d : List (κ × α)} {k : κ} {v : α}
    (h : k ∉ d.map Prod.fst) : dictInsert d k v = d ++ [(k, v)] := by
  induction d with
  | nil => rfl
  | cons p rest ih =>
    simp only [List.map_cons, List.mem_cons] at h
    push_neg at h
    simp only [dictInsert]
    rw [if_neg (Ne.symm h.1), ih h.2]
    rfl

theorem foldl_dictInsert_eq_append {κ α : Type} [DecidableEq κ] (l : List (κ × α)) :
    ∀ acc : List (κ × α),
      (∀ k2 ∈ acc.map Prod.fst, k2 ∉ l.map Prod.fst) →
      (l.map Prod.fst).Nodup →
      l.foldl (fun d p => dictInsert d p.1 p.2) acc = acc ++ l := by
  induction l with
  | nil =>
    intro acc _ _
    simp
  | cons p rest ih =>
    intro acc hdisj hnodup
    simp only [List.map_cons, List.nodup_cons] at hnodup
    simp only [List.foldl_cons]
    have hp : p.1 ∉ acc.map Prod.fst := fun hmem => hdisj p.1 hmem (by simp)
    rw [dictInsert_not_mem hp]
    rw [ih (acc ++ [(p.1, p.2)]) ?_ hnodup.2]
    · simp
    · intro k2 hk2
      rw [List.map_append] at hk2
      rcases List.mem_append.mp hk2 with hk2 | hk2
      · intro hc
        exact hdisj k2 hk2 (by simp [hc])
      · simp only [List.map_cons, List.map_nil, List.mem_singleton] at hk2
        subst hk2
        exact hnodup.1

theorem buildLabelDict_eq {M : List (Int × String)}
    (h : (M.map fun p => pyLower p.2).Nodup) :
    buildLabelDict M = M.map fun p => (pyLower p.2, p.1) := by
  have hkeys : ((M.map fun p => (pyLower p.2, p.1)).map Prod.fst)
      = M.map fun p => pyLower p.2 := by
    rw [List.map_map]
    rfl
  unfold buildLabelDict
  rw [foldl_dictInsert_eq_append]
  · simp
  · intro k2 hk2
    simp at hk2
  · rw [hkeys]
    exact h

theorem lookupAssoc_mem_nodup {κ α : Type} [DecidableEq κ] {k : κ} {v : α} :
    ∀ {d : List (κ × α)}, (k, v) ∈ d → (d.map Prod.fst).Nodup →
      lookupAssoc d k = Option.some v
  | [], hmem, _ => absurd hmem (List.not_mem_nil _)
  | p :: rest, hmem, hnd => by
    simp only [List.map_cons, List.nodup_cons] at hnd
    rcases List.mem_cons.mp hmem with heq | hmem2
    · rw [← heq]
      simp [lookupAssoc]
    · have hk : ¬(p.1 = k) := by
        intro hc
        exact hnd.1 (List.mem_map.mpr ⟨(k, v), hmem2, by rw [hc]⟩)
      simp [lookupAssoc, hk, lookupAssoc_mem_nodup hmem2 hnd.2]

theorem mem_insertPair {p q : Int × String} {l : List (Int × String)} :
    q ∈ insertPair p l ↔ q = p ∨ q ∈ l := by
  induction l with
  | nil => simp [insertPair]
  | cons r rest ih =>
    unfold insertPair
    split
    · simp [List.mem_cons]
    · simp only [List.mem_cons, ih]
      tauto

theorem mem_sortPairs {q : Int × String} {l : List (Int × String)} :
    q ∈ sortPairs l ↔ q ∈ l := by
  induction l with
  | nil => simp [sortPairs]
  | cons p rest ih =>
    simp only [sortPairs, List.foldr_cons]
    rw [show rest.foldr insertPair [] = sortPairs rest from rfl] at *
    rw [mem_insertPair, ih]
    simp [List.mem_cons]

theorem intersectAux_all_found {D : List (String × Int)} {L : List (Int × String)}
    (h : ∀ p ∈ L, lookupAssoc D (pyLower p.2) = Option.some p.1) :
    intersectAux D L = (L.filter fun p => p.1 != 0).map fun p => (p.1, p.1, p.2) := by
  induction L with
  | nil => rfl
  | cons p rest ih =>
    have hp := h p (List.mem_cons_self p rest)
    have hrest := ih (fun x hx => h x (List.mem_cons_of_mem _ hx))
    obtain ⟨c, label⟩ := p
    by_cases hc : c = 0
    · subst hc
      simp [intersectAux, hp, hrest, List.filter_cons]
    · simp [intersectAux, hp, hrest, List.filter_cons, hc]

/-- C5 counterexample: the round-trip claim fails when a category code
is `0`. For M = {0:"a", 1:"b"} the self-intersection is `[(1,1,"b")]` —
the `(0,0,"a")` triple required by the claim is missing, because
`if other_code:` treats the found code `0` as not found. -/
theorem C5_intersection_drops_zero_code :
    get_categories_intersection
        (SingleField.mk "m" "" Option.none Option.none [(0, "a"), (1, "b")] [0, 1])
        [(0, "a"), (1, "b")]
      = [(1, 1, "b")] ∧
    [(1, 1, "b")] ≠ (sortPairs [(0, "a"), (1, "b")]).map (fun p => (p.1, p.1, p.2)) := by
  constructor
  · rfl
  · decide

/-- C5 (amended): for a category store built from a mapping M with
pairwise case-insensitively distinct labels, the self-intersection
returns exactly the (code, code, label) triples of the entries of M
whose code is NONZERO, in ascending code order. (The claim as stated —
every entry of M — fails for code 0, see the counterexample.) -/
theorem C5_intersection_amended (M : List (Int × String)) (f : SingleField)
    (hf : f._categories = M)
    (hl : (M.map fun p => pyLower p.2).Nodup) :
    get_categories_intersection f M
      = ((sortPairs M).filter fun p => p.1 != 0).map fun p => (p.1, p.1, p.2) := by
  have hkeys : ((M.map fun p => (pyLower p.2, p.1)).map Prod.fst)
      = M.map fun p => pyLower p.2 := by
    rw [List.map_map]
    rfl
  unfold get_categories_intersection
  rw [hf]
  apply intersectAux_all_found
  intro p hp
  rw [buildLabelDict_eq hl]
  apply lookupAssoc_mem_nodup
  · exact List.mem_map_of_mem _ (mem_sortPairs.mp hp)
  · rw [hkeys]
    exact hl

theorem C5_intersection_amended_witness :
    get_categories_intersection
        (SingleField.mk "s" "" Option.none Option.none [(1, "a"), (2, "b")] [1, 2])
        [(1, "a"), (2, "b")]
      = [(1, 1, "a"), (2, 2, "b")] := by
  have h := C5_intersection_amended [(1, "a"), (2, "b")]
      (SingleField.mk "s" "" Option.none Option.none [(1, "a"), (2, "b")] [1, 2])
      rfl (by decide)
  exact h.trans (by rfl)

/-! ### Lemmas for the container invariant (C4) -/

theorem head_dropWhile_false {α : Type} (p : α → Bool) :
    ∀ (l : List α) {a : α}, (l.dropWhile p).head? = Option.some a → p a = false
  | [], a, h => by simp [List.dropWhile] at h
  | x :: xs, a, h => by
    rw [List.dropWhile_cons] at h
    split at h
    · exact head_dropWhile_false p xs h
    · rename_i hpx
      injection h with h2
      subst h2
      simpa using hpx

theorem dropWhile_eq_self_of_head_false {α : Type} (p : α → Bool) (l : List α) {a : α}
    (h : l.head? = Option.some a) (hp : p a = false) : l.dropWhile p = l := by
  cases l with
  | nil => rfl
  | cons x xs =>
    injection h with h2
    subst h2
    rw [List.dropWhile_cons, if_neg (by simp [hp])]

theorem trimC_idem (l : List Char) : trimC (trimC l) = trimC l := by
  unfold trimC
  have hdt : List.dropWhile pySpace
      (List.rdropWhile pySpace (List.dropWhile pySpace l))
      = List.rdropWhile pySpace (List.dropWhile pySpace l) := by
    cases htc : (List.rdropWhile pySpace (List.dropWhile pySpace l)).head? with
    | none =>
      have ht : List.rdropWhile pySpace (List.dropWhile pySpace l) = [] :=
        List.head?_eq_none_iff.mp htc
      rw [ht]
      rfl
    | some a =>
      have htne : List.rdropWhile pySpace (List.dropWhile pySpace l) ≠ [] := by
        intro hc
        rw [hc] at htc
        simp at htc
      obtain ⟨s, hs⟩ := List.rdropWhile_prefix pySpace (List.dropWhile pySpace l)
      have hzh : (List.dropWhile pySpace l).head? = Option.some a := by
        rw [← hs]
        cases hcase : List.rdropWhile pySpace (List.dropWhile pySpace l) with
        | nil => exact absurd hcase htne
        | cons x xs =>
          rw [hcase] at htc
          simpa using htc
      have hpa : pySpace a = false := head_dropWhile_false pySpace l hzh
      exact dropWhile_eq_self_of_head_false pySpace _ htc hpa
  rw [hdt]
  exact List.rdropWhile_idempotent pySpace (List.dropWhile pySpace l)

theorem pyStrip_idem (s : String) : pyStrip (pyStrip s) = pyStrip s := by
  unfold pyStrip
  rw [show (String.mk (trimC s.toList)).toList = trimC s.toList from rfl, trimC_idem]

theorem normName_strip (s : String) : pyStrip (normName s) = normName s := by
  unfold normName
  exact pyStrip_idem (pyLower s)

theorem lookupAssoc_some_mem {κ α : Type} [DecidableEq κ] {k : κ} {v : α} :
    ∀ {d : List (κ × α)}, lookupAssoc d k = Option.some v → (k, v) ∈ d
  | [], h => by simp [lookupAssoc] at h
  | p :: rest, h => by
    unfold lookupAssoc at h
    split at h
    · rename_i heq
      injection h with h2
      subst h2
      exact List.mem_cons.mpr (Or.inl (by rw [← heq]))
    · exact List.mem_cons_of_mem _ (lookupAssoc_some_mem h)

theorem lookupAssoc_none_not_mem {κ α : Type} [DecidableEq κ] {k : κ} :
    ∀ {d : List (κ × α)}, lookupAssoc d k = Option.none → k ∉ d.map Prod.fst
  | [], _ => by simp
  | p :: rest, h => by
    unfold lookupAssoc at h
    split at h
    · simp at h
    · rename_i hne
      intro hmem
      simp only [List.map_cons, List.mem_cons] at hmem
      rcases hmem with h1 | h1
      · exact hne h1.symm
      · exact lookupAssoc_none_not_mem h h1

theorem dictPop_some {α : Type} {k : String} :
    ∀ {d d2 : List (String × α)}, dictPop d k = Option.some d2 →
      ∃ pre v post, d = pre ++ (k, v) :: post ∧ d2 = pre ++ post ∧ k ∉ pre.map Prod.fst
  | [], _, h => by simp [dictPop] at h
  | p :: rest, d2, h => by
    unfold dictPop at h
    split at h
    · rename_i heq
      injection h with h2
      refine ⟨[], p.2, rest, ?_, by simp [h2], by simp⟩
      rw [List.nil_append, ← heq]
    · rename_i hne
      cases hr : dictPop rest k with
      | none => rw [hr] at h; simp at h
      | some d3 =>
        rw [hr] at h
        injection h with h2
        obtain ⟨pre, v, post, hd, hd2, hk⟩ := dictPop_some hr
        refine ⟨p :: pre, v, post, by rw [List.cons_append, ← hd], ?_, ?_⟩
        · rw [← h2, hd2]
          rfl
        · simp only [List.map_cons, List.mem_cons]
          intro hc
          rcases hc with hc | hc
          · exact hne hc.symm
          · exact hk hc

theorem removeFirst_decomp {α : Type} [DecidableEq α] {a : α} :
    ∀ {l : List α}, a ∈ l →
      ∃ l1 l2, l = l1 ++ a :: l2 ∧ a ∉ l1 ∧ removeFirst l a = l1 ++ l2
  | [], h => absurd h (List.not_mem_nil a)
  | x :: rest, h => by
    by_cases hx : x = a
    · subst hx
      exact ⟨[], rest, rfl, by simp, by simp [removeFirst]⟩
    · have hmem : a ∈ rest := by
        rcases List.mem_cons.mp h with h1 | h1
        · exact absurd h1.symm hx
        · exact h1
      obtain ⟨l1, l2, hdec, hnot, hrem⟩ := removeFirst_decomp hmem
      refine ⟨x :: l1, l2, by rw [List.cons_append, ← hdec], ?_, ?_⟩
      · intro hc
        rcases List.mem_cons.mp hc with h1 | h1
        · exact hx h1.symm
        · exact hnot h1
      · simp only [removeFirst, if_neg hx, hrem]
        rfl

theorem insertIdx_perm {α : Type} (a : α) :
    ∀ (n : Nat) (l : List α), n ≤ l.length → (l.insertIdx n a).Perm (a :: l)
  | 0, l, _ => by rw [List.insertIdx_zero]
  | n + 1, [], h => by simp at h
  | n + 1, x :: xs, h => by
    rw [List.insertIdx_succ_cons]
    exact ((insertIdx_perm a n xs (Nat.le_of_succ_le_succ h)).cons x).trans
      (List.Perm.swap a x xs)

theorem pyInsertIdx_perm {α : Type} (l : List α) (i : Int) (a : α) :
    (pyInsertIdx l i a).Perm (a :: l) := by
  unfold pyInsertIdx
  apply insertIdx_perm
  split
  · rw [Int.toNat_le]
    apply max_le
    · exact Int.ofNat_nonneg l.length
    · omega
  · exact min_le_right _ _

/-- The C4 invariant: the index keys are exactly (as a multiset) the
normalised names of the fields in the sequence, those names are
pairwise distinct, and every index entry carries the normalised name of
its own field, which is a member of the sequence. -/
def IndexInv (s : SurveyStruct) : Prop :=
  (s._field_dict.map Prod.fst).Perm (s._fields.map fun x => normName x.name) ∧
  (s._fields.map fun x => normName x.name).Nodup ∧
  ∀ p ∈ s._field_dict, p.1 = normName p.2.name ∧ p.2 ∈ s._fields

theorem IndexInv_empty : IndexInv SurveyStruct.empty := by
  refine ⟨List.Perm.refl _, List.nodup_nil, ?_⟩
  intro p hp
  exact absurd hp (List.not_mem_nil p)

theorem append_preserves {s : SurveyStruct} {f : SField} (h : IndexInv s) :
    IndexInv (s.append f).1 := by
  obtain ⟨h1, h2, h3⟩ := h
  unfold SurveyStruct.append SurveyStruct._add_to_dict
  cases hl : lookupAssoc s._field_dict (normName f.name) with
  | some g =>
    simp only [hl]
    exact ⟨h1, h2, h3⟩
  | none =>
    simp only [hl]
    have hk : normName f.name ∉ s._field_dict.map Prod.fst := lookupAssoc_none_not_mem hl
    have hkn : normName f.name ∉ s._fields.map fun x => normName x.name :=
      fun hc => hk (h1.mem_iff.mpr hc)
    rw [dictInsert_not_mem hk]
    refine ⟨?_, ?_, ?_⟩
    · simp only [List.map_append, List.map_cons, List.map_nil]
      exact h1.append_right _
    · simp only [List.map_append, List.map_cons, List.map_nil]
      exact ((List.perm_append_singleton _ _).nodup_iff).mpr (List.nodup_cons.mpr ⟨hkn, h2⟩)
    · intro p hp
      rcases List.mem_append.mp hp with hp1 | hp1
      · exact ⟨(h3 p hp1).1, List.mem_append_left _ (h3 p hp1).2⟩
      · rw [List.mem_singleton.mp hp1]
        exact ⟨rfl, List.mem_append_right _ (List.mem_singleton.mpr rfl)⟩

theorem insert_preserves {s : SurveyStruct} {i : Int} {f : SField} (h : IndexInv s) :
    IndexInv (s.insert i f).1 := by
  obtain ⟨h1, h2, h3⟩ := h
  unfold SurveyStruct.insert SurveyStruct._add_to_dict
  cases hl : lookupAssoc s._field_dict (normName f.name) with
  | some g =>
    simp only [hl]
    exact ⟨h1, h2, h3⟩
  | none =>
    simp only [hl]
    have hk : normName f.name ∉ s._field_dict.map Prod.fst := lookupAssoc_none_not_mem hl
    have hkn : normName f.name ∉ s._fields.map fun x => normName x.name :=
      fun hc => hk (h1.mem_iff.mpr hc)
    rw [dictInsert_not_mem hk]
    have hinsperm := pyInsertIdx_perm s._fields i f
    have hmapperm :
        ((pyInsertIdx s._fields i f).map fun x => normName x.name).Perm
          (normName f.name :: s._fields.map fun x => normName x.name) :=
      hinsperm.map fun x => normName x.name
    refine ⟨?_, ?_, ?_⟩
    · simp only [List.map_append, List.map_cons, List.map_nil]
      exact ((h1.append_right _).trans (List.perm_append_singleton _ _)).trans hmapperm.symm
    · exact hmapperm.nodup_iff.mpr (List.nodup_cons.mpr ⟨hkn, h2⟩)
    · intro p hp
      rcases List.mem_append.mp hp with hp1 | hp1
      · exact ⟨(h3 p hp1).1,
          hinsperm.mem_iff.mpr (List.mem_cons_of_mem _ (h3 p hp1).2)⟩
      · rw [List.mem_singleton.mp hp1]
        exact ⟨rfl, hinsperm.mem_iff.mpr (List.mem_cons_self _ _)⟩

theorem remove_preserves {s : SurveyStruct} {nm : String} (h : IndexInv s) :
    IndexInv (s.remove nm).1 := by
  obtain ⟨h1, h2, h3⟩ := h
  unfold SurveyStruct.remove SurveyStruct._get_from_dict
  cases hl : lookupAssoc s._field_dict (normName nm) with
  | none =>
    simp only [hl]
    exact ⟨h1, h2, h3⟩
  | some field =>
    simp only [hl]
    cases hp : dictPop s._field_dict (pyLower nm) with
    | none =>
      simp only [hp]
      exact ⟨h1, h2, h3⟩
    | some d2 =>
      simp only [hp]
      have hknodup : (s._field_dict.map Prod.fst).Nodup := h1.nodup_iff.mpr h2
      have hmem1 : (normName nm, field) ∈ s._field_dict := lookupAssoc_some_mem hl
      have hfield : field ∈ s._fields := (h3 _ hmem1).2
      obtain ⟨pre, g, post, hdec, hd2, hkpre⟩ := dictPop_some hp
      have hmem2 : (pyLower nm, g) ∈ s._field_dict := by
        rw [hdec]
        exact List.mem_append_right _ (List.mem_cons_self _ _)
      have hkey2 : pyLower nm = normName g.name := (h3 _ hmem2).1
      have htrim : normName nm = pyLower nm := by
        show pyStrip (pyLower nm) = pyLower nm
        rw [hkey2]
        exact normName_strip g.name
      have hgf : g = field := by
        have e1 := lookupAssoc_mem_nodup hmem1 hknodup
        have e2 := lookupAssoc_mem_nodup hmem2 hknodup
        rw [htrim] at e1
        rw [e1] at e2
        injection e2 with e3
        exact e3.symm
      subst hgf
      rw [if_pos hfield]
      obtain ⟨l1, l2, hfdec, hfnot, hfrem⟩ := removeFirst_decomp hfield
      rw [hfrem]
      have hkeysold : s._field_dict.map Prod.fst
          = pre.map Prod.fst ++ pyLower nm :: post.map Prod.fst := by
        rw [hdec]
        simp
      have hkeysnew : d2.map Prod.fst = pre.map Prod.fst ++ post.map Prod.fst := by
        rw [hd2]
        simp
      have hnamesold : (s._fields.map fun x => normName x.name)
          = (l1.map fun x => normName x.name)
            ++ pyLower nm :: (l2.map fun x => normName x.name) := by
        rw [hfdec]
        simp [hkey2]
      have hnamesnew : ((l1 ++ l2).map fun x => normName x.name)
          = (l1.map fun x => normName x.name) ++ (l2.map fun x => normName x.name) := by
        simp
      have hk2notin : pyLower nm ∉ d2.map Prod.fst := by
        have hn := hknodup
        rw [hkeysold] at hn
        have hcons := hn.perm List.perm_middle
        rw [hkeysnew]
        exact (List.nodup_cons.mp hcons).1
      have hperm : (d2.map Prod.fst).Perm ((l1 ++ l2).map fun x => normName x.name) := by
        apply List.Perm.cons_inv (a := pyLower nm)
        have t1 : (pyLower nm :: d2.map Prod.fst).Perm (s._field_dict.map Prod.fst) := by
          rw [hkeysold, hkeysnew]
          exact List.perm_middle.symm
        have t3 : (s._fields.map fun x => normName x.name).Perm
            (pyLower nm :: (l1 ++ l2).map fun x => normName x.name) := by
          rw [hnamesold, hnamesnew]
          exact List.perm_middle
        exact (t1.trans h1).trans t3
      have hnodupnew : ((l1 ++ l2).map fun x => normName x.name).Nodup := by
        have hn := h2
        rw [hnamesold] at hn
        have hcons := hn.perm List.perm_middle
        rw [hnamesnew]
        exact (List.nodup_cons.mp hcons).2
      refine ⟨hperm, hnodupnew, ?_⟩
      intro p hpmem
      have hpold : p ∈ s._field_dict := by
        rw [hdec]
        rw [hd2] at hpmem
        rcases List.mem_append.mp hpmem with h4 | h4
        · exact List.mem_append_left _ h4
        · exact List.mem_append_right _ (List.mem_cons_of_mem _ h4)
      have hself := h3 p hpold
      refine ⟨hself.1, ?_⟩
      have hpne : p.2 ≠ g := by
        intro hc
        apply hk2notin
        have hp1 : p.1 = pyLower nm := by
          rw [hself.1, hc, ← hkey2]
        rw [← hp1]
        exact List.mem_map_of_mem Prod.fst hpmem
      have hin : p.2 ∈ s._fields := hself.2
      rw [hfdec] at hin
      rcases List.mem_append.mp hin with h4 | h4
      · exact List.mem_append_left _ h4
      · rcases List.mem_cons.mp h4 with h5 | h5
        · exact absurd h5 hpne
        · exact List.mem_append_right _ h5

theorem step_preserves {s : SurveyStruct} (op : SOp) (h : IndexInv s) :
    IndexInv (s.step op).1 := by
  cases op with
  | addOp f => exact append_preserves h
  | insOp i f => exact insert_preserves h
  | remOp nm => exact remove_preserves h

theorem run_preserves {s : SurveyStruct} (ops : List SOp) (h : IndexInv s) :
    IndexInv (s.run ops) := by
  induction ops generalizing s with
  | nil => exact h
  | cons op rest ih => exact ih (step_preserves op h)

/-- C4: after every finite sequence of append/insert/remove operations
on a container (each operation either succeeding or raising, with the
state it leaves behind kept either way), the name index contains exactly
the case-insensitively normalised (`lower().strip()`) names of the
fields in the ordered sequence — as a multiset, hence each exactly once
since the names are pairwise distinct — and no two fields in the
container share a case-insensitive name. -/
theorem C4_container_index_invariant (ops : List SOp) :
    ((SurveyStruct.empty.run ops)._field_dict.map Prod.fst).Perm
      ((SurveyStruct.empty.run ops)._fields.map fun x => normName x.name) ∧
    ((SurveyStruct.empty.run ops)._fields.map fun x => normName x.name).Nodup := by
  have h := run_preserves ops IndexInv_empty
  exact ⟨h.1, h.2.1⟩
